import Mathlib

/-!
Shallow embedding of the airdrop bot core (`bot.py`).

The relational store (SQLite) is modelled as a record of row lists; the
storage-level uniqueness constraints (`UNIQUE(user_id, unique_key)` on the
ledger, the primary keys of `submissions`, `recipe_fingerprints` and
`pending_rewards`, and the partial unique index on `users.wallet_address`)
become explicit duplicate checks guarding each insert, exactly as the
source relies on `sqlite3.IntegrityError` for them.  Timestamps
(`created_at`) and the JSON `meta` column are not modelled: no claim
mentions them.  Wall-clock reads (`time.time()`, `datetime.now(TZ)`) are
passed in as explicit arguments.  Python strings are modelled as `String`,
Python integers as `ℤ`, SQL `NULL`able columns as `Option`.
-/

/-! ### Character/string helpers mirroring the Python `str` and `re` operations -/

/-- Word characters of the regex class `[A-Za-z0-9_]`. -/
def isWordChar (c : Char) : Bool :=
  c.isAlpha || c.isDigit || c == '_'

/-- Hex characters of the regex class `[a-fA-F0-9]`. -/
def isHexChar (c : Char) : Bool :=
  c.isDigit || ('a' ≤ c && c ≤ 'f') || ('A' ≤ c && c ≤ 'F')

/-- Python `str.strip()`: remove leading and trailing whitespace. -/
def strip_chars (l : List Char) : List Char :=
  ((l.dropWhile Char.isWhitespace).reverse.dropWhile Char.isWhitespace).reverse

/-- Python `re.sub(r"\s+", " ", t)`: replace each maximal whitespace run by a
single space.  The boolean argument records whether the previous character was
whitespace (so the run has already emitted its single space). -/
def collapse_ws : Bool → List Char → List Char
  | _, [] => []
  | prevWs, c :: rest =>
    if c.isWhitespace then
      if prevWs then collapse_ws true rest
      else ' ' :: collapse_ws true rest
    else c :: collapse_ws false rest

/-- Python `s.strip()` as a `String` operation. -/
def pyStrip (s : String) : String :=
  String.mk (strip_chars s.data)

/-- If `pre` is a prefix of `l`, return the remainder. -/
def dropPre (pre l : List Char) : Option (List Char) :=
  if l.take pre.length = pre then some (l.drop pre.length) else none

/-- Substring containment (used for `re.search` of a fixed needle). -/
def containsSub (s pat : String) : Bool :=
  (List.range (s.data.length + 1)).any
    (fun i => (s.data.drop i).take pat.data.length == pat.data)

/-! ### The validators (source lines 87–92: compiled regexes) -/

/-- Regex `WALLET_RE = ^0x[a-fA-F0-9]{40}$` (full match, as used via `.match` on the
whole anchored pattern). -/
def wallet_re_match (s : String) : Bool :=
  match s.data with
  | '0' :: 'x' :: rest => rest.length == 40 && rest.all isHexChar
  | _ => false

/-- Regex `X_PROFILE_URL_RE = ^https?://(www\.)?(x\.com|twitter\.com)/[A-Za-z0-9_]{1,15}/?$`.
The optional groups are resolved deterministically; this agrees with the
backtracking regex because the alternatives start with distinct fixed text. -/
def x_profile_match (s : String) : Bool :=
  match dropPre "https://".data s.data <|> dropPre "http://".data s.data with
  | none => false
  | some s1 =>
    let s2 := (dropPre "www.".data s1).getD s1
    match dropPre "x.com/".data s2 <|> dropPre "twitter.com/".data s2 with
    | none => false
    | some rest =>
      let core := if rest.getLast? = some '/' then rest.dropLast else rest
      decide (1 ≤ core.length) && decide (core.length ≤ 15) && core.all isWordChar

/-- Regex `TG_USERNAME_RE = ^@[A-Za-z0-9_]{5,32}$`. -/
def tg_username_match (s : String) : Bool :=
  match s.data with
  | '@' :: rest => decide (5 ≤ rest.length) && decide (rest.length ≤ 32) && rest.all isWordChar
  | _ => false

/-- Python `re.search(r"https?://|www\.", t, re.IGNORECASE)`: the lowered text
contains one of the fixed needles. -/
def contains_link (t : String) : Bool :=
  let l := String.mk (t.data.map Char.toLower)
  containsSub l "http://" || containsSub l "https://" || containsSub l "www."

/-- One position of a `\bword\b` match (case already lowered): the word occurs
at index `i` with no word character immediately before or after. -/
def hasWordAt (l w : List Char) (i : ℕ) : Bool :=
  ((l.drop i).take w.length == w)
  && (i == 0 || !isWordChar (l.getD (i - 1) ' '))
  && !isWordChar (l.getD (i + w.length) ' ')

/-- Python `re.search(r"\bword\b", t, re.IGNORECASE)` for a fixed lowercase word. -/
def hasWord (s w : String) : Bool :=
  let l := s.data.map Char.toLower
  (List.range (l.length + 1)).any (fun i => hasWordAt l w.data i)

/-- Source lines 418–447: `validate(validator, text) -> (ok, error, normalized)`.
Every branch is reproduced; an unrecognized validator (including the empty
string used when a mission omits one) falls through to `(True, "", text)`. -/
def validate (validator : String) (text : String) : Bool × String × String :=
  if validator = "x_profile" then
    if x_profile_match text then (true, "", text)
    else (false, "Please send your X profile link like https://x.com/username", text)
  else if validator = "tg_username" then
    if tg_username_match text then (true, "", text)
    else (false, "Please send your Telegram username starting with @ (e.g., @myname).", text)
  else if validator = "recipe_text" then
    let t := pyStrip text
    if t.length < 200 then
      (false, "Please send a longer recipe (min 200 characters). Include Ingredients + Steps.", t)
    else if contains_link t then
      (false, "Please do not include links in your recipe.", t)
    else if !(hasWord t "ingredients" && (hasWord t "steps" || hasWord t "directions" || hasWord t "method")) then
      (false, "Please include sections: Ingredients + Steps.", t)
    else (true, "", t)
  else (true, "", text)

/-- Source lines 481–485: `normalize_recipe_text` = strip, lowercase, collapse
whitespace.  `str.lower` is modelled by `Char.toLower` (ASCII case folding). -/
def normalize_recipe_text (text : String) : String :=
  String.mk (collapse_ws false ((strip_chars text.data).map Char.toLower))

/-! ### Data model (the SQLite schema of `init_db`, lines 104–182) -/

/-- A `ledger` row (columns `id`/`created_at`/`meta` omitted). -/
structure LedgerEntry where
  user_id : ℤ
  unique_key : String
  type : String
  amount : ℤ
deriving DecidableEq, Repr

/-- A `users` row (columns `username`/`ref_code`/`created_at` omitted: no
claim mentions them). -/
structure UserRow where
  user_id : ℤ
  referred_by : Option ℤ
  wallet_address : Option String
  wallet_pending : Option String
  wallet_change_count : ℤ
  state : Option String
deriving DecidableEq, Repr

/-- A `pending_rewards` row. -/
structure PendingReward where
  user_id : ℤ
  mission_id : String
  unique_key : String
  amount : ℤ
  available_at_ts : ℤ
deriving DecidableEq, Repr

/-- A `submissions` row. -/
structure Submission where
  user_id : ℤ
  mission_id : String
  payload : String
deriving DecidableEq, Repr

/-- A `recipe_fingerprints` row. -/
structure Fingerprint where
  mission_id : String
  fingerprint : String
  user_id : ℤ
deriving DecidableEq, Repr

/-- The whole database. -/
structure DB where
  users : List UserRow
  ledger : List LedgerEntry
  submissions : List Submission
  fingerprints : List Fingerprint
  pending_rewards : List PendingReward
deriving DecidableEq, Repr

/-- A mission from the static config (`MISSIONS`); `delay_minutes` defaults to
0 and `validator` to `""` when absent, as in the source's `m.get` calls. -/
structure Mission where
  id : String
  points : ℤ
  delay_minutes : ℤ
  validator : String
deriving DecidableEq, Repr

/-- The static campaign configuration (`CONFIG`, loaded once at startup). -/
structure Config where
  point_wallet_register : ℤ
  point_referral_qualified : ℤ
  point_daily_checkin : ℤ
  streak_bonuses : List (ℤ × ℤ)
  missions : List Mission
deriving DecidableEq, Repr

/-! ### Row-level operations -/

/-- Query `SELECT * FROM users WHERE user_id = ?` (`get_user`, lines 206–212). -/
def get_user (db : DB) (uid : ℤ) : Option UserRow :=
  db.users.find? (fun u => u.user_id == uid)

/-- Statement `UPDATE users SET ... WHERE user_id = ?`: apply `f` to every row with this
id (the primary key makes it at most one in any reachable state). -/
def update_user (db : DB) (uid : ℤ) (f : UserRow → UserRow) : DB :=
  { db with users := db.users.map (fun u => if u.user_id == uid then f u else u) }

/-- Source `set_state` (lines 237–242). -/
def set_state (db : DB) (uid : ℤ) (st : Option String) : DB :=
  update_user db uid (fun u => { u with state := st })

/-- Source `add_points_once` (lines 245–258): insert a ledger row; the
`UNIQUE(user_id, unique_key)` constraint turns a duplicate into a caught
`IntegrityError`, i.e. a `false` return with no change. -/
def add_points_once (db : DB) (uid : ℤ) (uk typ : String) (amount : ℤ) : Bool × DB :=
  if db.ledger.any (fun e => e.user_id == uid && e.unique_key == uk) then (false, db)
  else (true, { db with ledger := db.ledger ++ [⟨uid, uk, typ, amount⟩] })

/-- Number of ledger rows for a given (user, idempotency key) pair. -/
def ledger_count (db : DB) (uid : ℤ) (uk : String) : ℕ :=
  (db.ledger.filter (fun e => e.user_id == uid && e.unique_key == uk)).length

/-- Source `get_points` (lines 307–313): `SELECT COALESCE(SUM(amount), 0)`. -/
def get_points (db : DB) (uid : ℤ) : ℤ :=
  ((db.ledger.filter (fun e => e.user_id == uid)).map (fun e => e.amount)).sum

/-- Source `add_pending_reward` (lines 260–274): `available_at_ts = now + delay*60`;
the `PRIMARY KEY (user_id, mission_id)` turns a second schedule attempt into a
`false` return. -/
def add_pending_reward (db : DB) (uid : ℤ) (mission_id uk : String)
    (amount now delay_minutes : ℤ) : Bool × DB :=
  let available_at_ts := now + delay_minutes * 60
  if db.pending_rewards.any (fun r => r.user_id == uid && r.mission_id == mission_id) then
    (false, db)
  else
    (true, { db with pending_rewards :=
      db.pending_rewards ++ [⟨uid, mission_id, uk, amount, available_at_ts⟩] })

/-- One iteration of the loop in `process_due_rewards` (lines 289–301): credit
the stored key via `add_points_once`, then `DELETE` the pending row whether or
not the credit was new. -/
def process_step (uid : ℤ) (acc : List (String × ℤ) × DB) (r : PendingReward) :
    List (String × ℤ) × DB :=
  let res := add_points_once acc.2 uid r.unique_key ("mission:" ++ r.mission_id) r.amount
  let db2 := { res.2 with pending_rewards :=
    res.2.pending_rewards.filter (fun p => !(p.user_id == uid && p.mission_id == r.mission_id)) }
  (if res.1 then acc.1 ++ [(r.mission_id, r.amount)] else acc.1, db2)

/-- Source `process_due_rewards` (lines 277–304): snapshot the user's due rows, then
run the loop. -/
def process_due_rewards (db : DB) (uid now : ℤ) : List (String × ℤ) × DB :=
  let rows := db.pending_rewards.filter
    (fun r => r.user_id == uid && decide (r.available_at_ts ≤ now))
  rows.foldl (process_step uid) ([], db)

/-- Source `claim_recipe_fingerprint` (lines 488–504).  The SHA-256 hex digest is an
opaque deterministic function of the normalized text; it is taken as the
parameter `digest`, so every theorem below holds for the real digest. -/
def claim_recipe_fingerprint (digest : String → String) (db : DB)
    (mission_id : String) (uid : ℤ) (text : String) : Bool × DB :=
  let fp := digest (normalize_recipe_text text)
  if db.fingerprints.any (fun f => f.mission_id == mission_id && f.fingerprint == fp) then
    (false, db)
  else
    (true, { db with fingerprints := db.fingerprints ++ [⟨mission_id, fp, uid⟩] })

/-- The `INSERT INTO submissions` with `IntegrityError` silently ignored
(lines 1040–1050). -/
def record_submission (db : DB) (uid : ℤ) (mission_id payload : String) : DB :=
  if db.submissions.any (fun s => s.user_id == uid && s.mission_id == mission_id) then db
  else { db with submissions := db.submissions ++ [⟨uid, mission_id, payload⟩] }

/-! ### Streak engine (lines 450–479).  Calendar dates are modelled as `ℤ`
day numbers (`timedelta(days=1)` is subtraction of 1); `strftime`/`strptime`
become the explicit rendering/parsing parameters `fmt`/`parse`. -/

/-- Source `get_checkin_dates`: parse the date out of every
`daily_checkin:YYYY-MM-DD` ledger key of type `daily_checkin`; unparseable
suffixes are skipped (`except: continue`); the result is a set. -/
def get_checkin_dates (parse : String → Option ℤ) (db : DB) (uid : ℤ) : Finset ℤ :=
  ((db.ledger.filter (fun e =>
      e.user_id == uid && e.type == "daily_checkin"
        && "daily_checkin:".data.isPrefixOf e.unique_key.data)).filterMap
    (fun e => parse (String.mk (e.unique_key.data.drop "daily_checkin:".data.length)))).toFinset

/-- The backward walk of `compute_streak` with explicit fuel.  Each successful
iteration consumes a distinct element of the finite date set, so
`dates.card + 1` steps always reach the terminating membership test. -/
def compute_streak_aux (dates : Finset ℤ) : ℕ → ℤ → ℕ
  | 0, _ => 0
  | fuel + 1, d => if d ∈ dates then 1 + compute_streak_aux dates fuel (d - 1) else 0

/-- Source `compute_streak` (lines 472–479): count consecutive days ending at
`today` that have a check-in, walking backward until a gap. -/
def compute_streak (dates : Finset ℤ) (today : ℤ) : ℕ :=
  compute_streak_aux dates (dates.card + 1) today

/-! ### Handlers.  The conversational surface (Telegram replies, keyboards,
images) is presentation; each handler's effect on the store and its decision
outcome are modelled.  `ensure_user` (which only creates the row / refreshes
the display name) is assumed to have run, as it does at the top of every
handler. -/

/-- Outcome of the `daily_checkin` callback branch (lines 664–713). -/
inductive CheckinOutcome where
  | noWallet
  | alreadyCheckedIn (streak : ℕ)
  | checkedIn (streak : ℕ) (bonuses : List (ℤ × ℤ))
deriving DecidableEq, Repr

/-- The `daily_checkin` branch of `on_callback` (lines 664–713): build the key
`daily_checkin:<today>`, try the daily credit, compute the streak (today
included), and on a fresh credit grant every configured streak bonus whose
`days` equals the streak, under key `streak_bonus:<days>:<today>`. -/
def daily_checkin_step (cfg : Config) (fmt : ℤ → String) (parse : String → Option ℤ)
    (db : DB) (uid : ℤ) (today : ℤ) : CheckinOutcome × DB :=
  match get_user db uid with
  | none => (.noWallet, db)
  | some row =>
    if row.wallet_address.isNone then (.noWallet, db)
    else
      let today_str := fmt today
      let res := add_points_once db uid ("daily_checkin:" ++ today_str) "daily_checkin"
        cfg.point_daily_checkin
      let streak := compute_streak (get_checkin_dates parse res.2 uid) today
      if !res.1 then (.alreadyCheckedIn streak, res.2)
      else
        let folded := cfg.streak_bonuses.foldl
          (fun (acc : List (ℤ × ℤ) × DB) rule =>
            if (streak : ℤ) = rule.1 then
              let bres := add_points_once acc.2 uid
                ("streak_bonus:" ++ toString rule.1 ++ ":" ++ today_str) "streak_bonus" rule.2
              (if bres.1 then acc.1 ++ [rule] else acc.1, bres.2)
            else acc) ([], res.2)
        (.checkedIn streak folded.1, folded.2)

/-- The `AWAIT_WALLET` / `AWAIT_WALLET_CHANGE` text branches (lines 973–1014):
validate against `WALLET_RE`, and on success stage the address in
`wallet_pending`. -/
def stage_wallet (db : DB) (uid : ℤ) (text : String) : Bool × DB :=
  if wallet_re_match text then
    (true, update_user db uid (fun u => { u with wallet_pending := some text }))
  else (false, db)

/-- Outcome of the `wallet_confirm` callback branch. -/
inductive ConfirmOutcome where
  | noUser
  | alreadyRegistered
  | noPending
  | duplicate
  | success (addr : String)
deriving DecidableEq, Repr

/-- The `wallet_confirm` branch of `on_callback` (lines 795–858): refuse when
an active wallet exists or nothing is pending; reject when any other user
already holds the pending address; otherwise promote pending to active,
clear pending and state, grant the fixed `wallet_register` award and, when a
referrer is recorded, the referrer's `referral:<uid>` award.  The
`IntegrityError` fallback of the source is the race guard of the unique
wallet index and is unreachable in this sequential model. -/
def wallet_confirm (cfg : Config) (db : DB) (uid : ℤ) : ConfirmOutcome × DB :=
  match get_user db uid with
  | none => (.noUser, db)
  | some row =>
    match row.wallet_address with
    | some _ => (.alreadyRegistered, db)
    | none =>
      match row.wallet_pending with
      | none => (.noPending, db)
      | some pending =>
        if db.users.any (fun u => u.wallet_address == some pending && !(u.user_id == uid)) then
          (.duplicate, db)
        else
          let db1 := update_user db uid (fun u =>
            { u with wallet_address := some pending, wallet_pending := none, state := none })
          let db2 := (add_points_once db1 uid "wallet_register" "wallet_register"
            cfg.point_wallet_register).2
          let db3 := match row.referred_by with
            | some ref => (add_points_once db2 ref ("referral:" ++ toString uid)
                "referral_wallet_connected" cfg.point_referral_qualified).2
            | none => db2
          (.success pending, db3)

/-- Outcome of a mission submission (the `MISSION:` text branch). -/
inductive SubmitOutcome where
  | notConfigured
  | invalid (err : String)
  | duplicateRecipe
  | scheduled (minutes : ℤ)
  | alreadyScheduled
  | awarded (points : ℤ)
  | alreadyAwarded
deriving DecidableEq, Repr

/-- Lines 1039–1093 after a successful validation (and fingerprint claim, if
required): record the submission, then either schedule the reward (positive
delay) or credit it immediately, and reset the conversation state. -/
def finish_submission (db : DB) (uid : ℤ) (mission_id : String) (m : Mission)
    (normalized : String) (now : ℤ) : SubmitOutcome × DB :=
  let db1 := record_submission db uid mission_id normalized
  if 0 < m.delay_minutes then
    let res := add_pending_reward db1 uid mission_id ("mission:" ++ mission_id) m.points
      now m.delay_minutes
    (if res.1 then .scheduled m.delay_minutes else .alreadyScheduled, set_state res.2 uid none)
  else
    let res := add_points_once db1 uid ("mission:" ++ mission_id) ("mission:" ++ mission_id)
      m.points
    (if res.1 then .awarded m.points else .alreadyAwarded, set_state res.2 uid none)

/-- The `MISSION:<id>` branch of `on_any_text` (lines 1017–1093): look the
mission up in the config (resetting state when absent), validate, apply the
global fingerprint dedup for the `recipe_submit` mission (keeping the state on
rejection so the user can resubmit), then finish. -/
def mission_submit (cfg : Config) (digest : String → String) (db : DB) (uid : ℤ)
    (mission_id : String) (text : String) (now : ℤ) : SubmitOutcome × DB :=
  match cfg.missions.find? (fun m => m.id == mission_id) with
  | none => (.notConfigured, set_state db uid none)
  | some m =>
    match validate m.validator text with
    | (false, err, _) => (.invalid err, db)
    | (true, _, normalized) =>
      if mission_id = "recipe_submit" then
        match claim_recipe_fingerprint digest db mission_id uid normalized with
        | (false, db1) => (.duplicateRecipe, db1)
        | (true, db1) => finish_submission db1 uid mission_id m normalized now
      else finish_submission db uid mission_id m normalized now

/-- Outcome of the state dispatch of `on_any_text`. -/
inductive TextOutcome where
  | aiChat
  | walletInvalid
  | walletStaged
  | walletChangeStaged
  | missionOutcome (o : SubmitOutcome)
  | fallback
deriving DecidableEq, Repr

/-- Source `on_any_text` (lines 940–1103) after the static menu routing: fetch the
user row, settle due delayed rewards, strip the text, and dispatch on the
stripped conversation state (`AI_CHAT` only calls the external relay; the two
wallet states stage the address; `MISSION:<id>` runs the submission flow).
Returns (delayed rewards credited now, outcome, new store). -/
def handle_state_text (cfg : Config) (digest : String → String) (db : DB) (uid : ℤ)
    (text0 : String) (now : ℤ) : List (String × ℤ) × TextOutcome × DB :=
  let row? := get_user db uid
  let settled := process_due_rewards db uid now
  let newly := settled.1
  let db0 := settled.2
  let text := pyStrip text0
  match row? with
  | none => (newly, .fallback, db0)
  | some row =>
    let st := pyStrip (row.state.getD "")
    if st = "AI_CHAT" then (newly, .aiChat, db0)
    else if st = "AWAIT_WALLET" then
      let res := stage_wallet db0 uid text
      (newly, if res.1 then .walletStaged else .walletInvalid, res.2)
    else if st = "AWAIT_WALLET_CHANGE" then
      let res := stage_wallet db0 uid text
      (newly, if res.1 then .walletChangeStaged else .walletInvalid, res.2)
    else
      match dropPre "MISSION:".data st.data with
      | some rest =>
        let res := mission_submit cfg digest db0 uid (String.mk rest) text now
        (newly, .missionOutcome res.1, res.2)
      | none => (newly, .fallback, db0)

/-! ### Basic lemmas about the ledger primitive -/

theorem ledger_count_ne_zero_iff (db : DB) (uid : ℤ) (uk : String) :
    ledger_count db uid uk ≠ 0 ↔ ∃ e ∈ db.ledger, e.user_id = uid ∧ e.unique_key = uk := by
  constructor
  · intro h
    obtain ⟨e, he⟩ := List.exists_mem_of_length_pos (Nat.pos_of_ne_zero h)
    have hm := List.mem_filter.mp he
    refine ⟨e, hm.1, ?_, ?_⟩
    · have := hm.2
      simp only [Bool.and_eq_true, beq_iff_eq] at this
      exact this.1
    · have := hm.2
      simp only [Bool.and_eq_true, beq_iff_eq] at this
      exact this.2
  · rintro ⟨e, he, h1, h2⟩
    have hmem : e ∈ db.ledger.filter (fun e => e.user_id == uid && e.unique_key == uk) :=
      List.mem_filter.mpr ⟨he, by simp [h1, h2]⟩
    intro hl
    rw [ledger_count, List.length_eq_zero] at hl
    simp [hl] at hmem

theorem ledger_any_eq_true_iff (db : DB) (uid : ℤ) (uk : String) :
    db.ledger.any (fun e => e.user_id == uid && e.unique_key == uk) = true ↔
      ledger_count db uid uk ≠ 0 := by
  rw [ledger_count_ne_zero_iff, List.any_eq_true]
  constructor
  · rintro ⟨e, he, hp⟩
    simp only [Bool.and_eq_true, beq_iff_eq] at hp
    exact ⟨e, he, hp⟩
  · rintro ⟨e, he, h1, h2⟩
    exact ⟨e, he, by simp [h1, h2]⟩

theorem add_points_once_of_absent {db : DB} {uid : ℤ} {uk : String} (typ : String) (a : ℤ)
    (h : ledger_count db uid uk = 0) :
    add_points_once db uid uk typ a =
      (true, { db with ledger := db.ledger ++ [⟨uid, uk, typ, a⟩] }) := by
  rw [add_points_once, if_neg]
  intro hany
  exact (ledger_any_eq_true_iff db uid uk).mp hany h

theorem add_points_once_of_present {db : DB} {uid : ℤ} {uk : String} (typ : String) (a : ℤ)
    (h : ledger_count db uid uk ≠ 0) :
    add_points_once db uid uk typ a = (false, db) := by
  rw [add_points_once, if_pos]
  exact (ledger_any_eq_true_iff db uid uk).mpr h

theorem ledger_count_append_single (db : DB) (e : LedgerEntry) (uid : ℤ) (uk : String) :
    ledger_count { db with ledger := db.ledger ++ [e] } uid uk =
      ledger_count db uid uk + (if e.user_id = uid ∧ e.unique_key = uk then 1 else 0) := by
  rw [ledger_count, ledger_count]
  simp only [List.filter_append, List.length_append]
  by_cases h : e.user_id = uid ∧ e.unique_key = uk
  · simp [List.filter, h.1, h.2, h]
  · have : ¬(e.user_id == uid && e.unique_key == uk) = true := by
      simp only [Bool.and_eq_true, beq_iff_eq]
      exact h
    simp [List.filter, this, h]

theorem get_points_append_single (db : DB) (e : LedgerEntry) (uid : ℤ) :
    get_points { db with ledger := db.ledger ++ [e] } uid =
      get_points db uid + (if e.user_id = uid then e.amount else 0) := by
  rw [get_points, get_points]
  simp only [List.filter_append, List.map_append, List.sum_append]
  by_cases h : e.user_id = uid
  · simp [List.filter, h]
  · have : ¬(e.user_id == uid) = true := by simp [h]
    simp [List.filter, this, h]

theorem add_points_once_count_self {db : DB} {uid : ℤ} {uk : String} (typ : String) (a : ℤ)
    (h : ledger_count db uid uk = 0) :
    ledger_count (add_points_once db uid uk typ a).2 uid uk = 1 := by
  rw [add_points_once_of_absent typ a h]
  rw [ledger_count_append_single]
  simp [h]

theorem add_points_once_count_ne {db : DB} {uid' uid : ℤ} {uk' uk : String} (typ : String)
    (a : ℤ) (h : ¬(uid' = uid ∧ uk' = uk)) :
    ledger_count (add_points_once db uid' uk' typ a).2 uid uk = ledger_count db uid uk := by
  by_cases hc : ledger_count db uid' uk' = 0
  · rw [add_points_once_of_absent typ a hc, ledger_count_append_single]
    simp [h]
  · rw [add_points_once_of_present typ a hc]

theorem add_points_once_count_stable {db : DB} {uid' uid : ℤ} {uk' uk : String} (typ : String)
    (a : ℤ) (h : ledger_count db uid uk = 1) :
    ledger_count (add_points_once db uid' uk' typ a).2 uid uk = 1 := by
  by_cases he : uid' = uid ∧ uk' = uk
  · obtain ⟨rfl, rfl⟩ := he
    rw [add_points_once_of_present typ a (by rw [h]; exact one_ne_zero)]
    exact h
  · rw [add_points_once_count_ne typ a he]
    exact h

theorem add_points_once_users (db : DB) (uid : ℤ) (uk typ : String) (a : ℤ) :
    ((add_points_once db uid uk typ a).2).users = db.users := by
  rw [add_points_once]; split <;> rfl

theorem add_points_once_submissions (db : DB) (uid : ℤ) (uk typ : String) (a : ℤ) :
    ((add_points_once db uid uk typ a).2).submissions = db.submissions := by
  rw [add_points_once]; split <;> rfl

theorem add_points_once_fingerprints (db : DB) (uid : ℤ) (uk typ : String) (a : ℤ) :
    ((add_points_once db uid uk typ a).2).fingerprints = db.fingerprints := by
  rw [add_points_once]; split <;> rfl

theorem add_points_once_pending (db : DB) (uid : ℤ) (uk typ : String) (a : ℤ) :
    ((add_points_once db uid uk typ a).2).pending_rewards = db.pending_rewards := by
  rw [add_points_once]; split <;> rfl

theorem ledger_count_congr {db db' : DB} (uid : ℤ) (uk : String) (h : db.ledger = db'.ledger) :
    ledger_count db uid uk = ledger_count db' uid uk := by
  rw [ledger_count, ledger_count, h]

/-! ### Claim C2: ledger balance and exactly-once crediting -/

/-- An empty store, used by concrete witnesses. -/
def emptyDB : DB := ⟨[], [], [], [], []⟩

/-- C2: for every user, `get_points` is the sum of the amounts of the ledger
rows for that user (zero when there are none, and growing by exactly the
inserted amount on each successful insert), and for every (user, key) pair a
second `add_points_once` call inserts nothing: the first call returns `true`,
every later call with the same pair returns `false` and leaves the store
unchanged (the duplicate is an ordinary `false` result, not an exception). -/
theorem C2_ledger_balance_and_idempotency :
    (∀ db uid, db.ledger.filter (fun e => e.user_id == uid) = [] → get_points db uid = 0)
    ∧ (∀ db uid uk typ a, ledger_count db uid uk = 0 →
        (add_points_once db uid uk typ a).1 = true
        ∧ ledger_count (add_points_once db uid uk typ a).2 uid uk = 1
        ∧ get_points (add_points_once db uid uk typ a).2 uid = get_points db uid + a)
    ∧ (∀ db uid uk typ a, ledger_count db uid uk ≠ 0 →
        add_points_once db uid uk typ a = (false, db))
    ∧ (∀ db uid uk typ a typ' a', ledger_count db uid uk = 0 →
        add_points_once (add_points_once db uid uk typ a).2 uid uk typ' a' =
          (false, (add_points_once db uid uk typ a).2)) := by
  refine ⟨?_, ?_, ?_, ?_⟩
  · intro db uid h
    rw [get_points, h]
    rfl
  · intro db uid uk typ a h
    refine ⟨?_, add_points_once_count_self typ a h, ?_⟩
    · rw [add_points_once_of_absent typ a h]
    · rw [add_points_once_of_absent typ a h]
      have := get_points_append_single db ⟨uid, uk, typ, a⟩ uid
      simpa using this
  · intro db uid uk typ a h
    exact add_points_once_of_present typ a h
  · intro db uid uk typ a typ' a' h
    apply add_points_once_of_present
    rw [add_points_once_count_self typ a h]
    exact one_ne_zero

/-- Concrete instance of C2 on an empty store. -/
theorem C2_witness :
    (add_points_once emptyDB 1 "k" "t" 5).1 = true
    ∧ ledger_count (add_points_once emptyDB 1 "k" "t" 5).2 1 "k" = 1
    ∧ get_points (add_points_once emptyDB 1 "k" "t" 5).2 1 = get_points emptyDB 1 + 5
    ∧ add_points_once (add_points_once emptyDB 1 "k" "t" 5).2 1 "k" "u" 7 =
        (false, (add_points_once emptyDB 1 "k" "t" 5).2) := by
  have h0 : ledger_count emptyDB 1 "k" = 0 := by decide
  obtain ⟨-, h2, -, h4⟩ := C2_ledger_balance_and_idempotency
  obtain ⟨a1, a2, a3⟩ := h2 emptyDB 1 "k" "t" 5 h0
  exact ⟨a1, a2, a3, h4 emptyDB 1 "k" "t" 5 "u" 7 h0⟩

/-! ### Claims C9, C6, C10: validation fallthrough and fingerprint dedup -/

/-- C9: every validator kind other than the three recognized ones — including
the empty string used when a mission's config omits a validator — accepts any
text unconditionally and passes it through unchanged. -/
theorem C9_unrecognized_validator_accepts :
    ∀ validator text, validator ≠ "x_profile" → validator ≠ "tg_username" →
      validator ≠ "recipe_text" → validate validator text = (true, "", text) := by
  intro v t h1 h2 h3
  rw [validate, if_neg h1, if_neg h2, if_neg h3]

/-- Concrete instance of C9 for the empty validator kind. -/
theorem C9_witness : validate "" "anything at all" = (true, "", "anything at all") :=
  C9_unrecognized_validator_accepts "" "anything at all" (by decide) (by decide) (by decide)

theorem claim_fingerprints_sub (digest : String → String) (db : DB) (m : String) (u : ℤ)
    (t : String) :
    ∀ f ∈ (claim_recipe_fingerprint digest db m u t).2.fingerprints,
      f ∈ db.fingerprints ∨ f.mission_id = m := by
  intro f hf
  rw [claim_recipe_fingerprint] at hf
  split at hf
  · exact Or.inl hf
  · simp only [List.mem_append, List.mem_singleton] at hf
    rcases hf with h | h
    · exact Or.inl h
    · right
      rw [h]

theorem claim_after_claim_same (digest : String → String) (db : DB) (m : String)
    (u1 u2 : ℤ) (t1 t2 : String)
    (h : normalize_recipe_text t2 = normalize_recipe_text t1) :
    (claim_recipe_fingerprint digest (claim_recipe_fingerprint digest db m u1 t1).2 m u2 t2).1
      = false := by
  simp only [claim_recipe_fingerprint, h]
  by_cases hc : db.fingerprints.any
      (fun f => f.mission_id == m && f.fingerprint == digest (normalize_recipe_text t1)) = true
  · simp [hc]
  · simp only [Bool.not_eq_true] at hc
    simp [hc]

/-- C6: `claim_recipe_fingerprint` digests the trim/lowercase/collapse
normalization of the text, so once any user has claimed some content for a
mission, a second claim of any text with the same normalization for the same
mission returns `false`; claiming the same text for a different mission (one
with no prior fingerprints) returns `true`. -/
theorem C6_fingerprint_dedup :
    (∀ (digest : String → String) db m u1 u2 t1 t2,
      normalize_recipe_text t2 = normalize_recipe_text t1 →
      (claim_recipe_fingerprint digest
        (claim_recipe_fingerprint digest db m u1 t1).2 m u2 t2).1 = false)
    ∧ (∀ (digest : String → String) db m m' u1 u2 t1 t2, m' ≠ m →
      (∀ f ∈ db.fingerprints, f.mission_id ≠ m') →
      (claim_recipe_fingerprint digest
        (claim_recipe_fingerprint digest db m u1 t1).2 m' u2 t2).1 = true) := by
  constructor
  · intro digest db m u1 u2 t1 t2 h
    exact claim_after_claim_same digest db m u1 u2 t1 t2 h
  · intro digest db m m' u1 u2 t1 t2 hm hdb
    have hall : (claim_recipe_fingerprint digest db m u1 t1).2.fingerprints.any
        (fun f => f.mission_id == m' && f.fingerprint == digest (normalize_recipe_text t2))
          = false := by
      rw [List.any_eq_false]
      intro f hf
      simp only [Bool.and_eq_true, beq_iff_eq, not_and]
      intro hfm
      exfalso
      rcases claim_fingerprints_sub digest db m u1 t1 f hf with h1 | h2
      · exact hdb f h1 hfm
      · exact hm (hfm ▸ h2 ▸ rfl)
    rw [claim_recipe_fingerprint]
    simp only [hall]
    simp

/-- C10: the fingerprint store keys on (mission, digest) alone, so resubmitting
content with the same normalization is rejected even when the second claimant
is the very user who made the first claim. -/
theorem C10_same_user_reclaim_rejected :
    ∀ (digest : String → String) db m u t,
      (claim_recipe_fingerprint digest
        (claim_recipe_fingerprint digest db m u t).2 m u t).1 = false :=
  fun digest db m u t => claim_after_claim_same digest db m u u t t rfl

/-- Concrete instance of C6: capitalization/whitespace variants collide on the
same mission, the identical text passes on a fresh mission. -/
theorem C6_witness :
    normalize_recipe_text "my recipe" = normalize_recipe_text "  My  Recipe "
    ∧ (claim_recipe_fingerprint id
        (claim_recipe_fingerprint id emptyDB "recipe_submit" 1 "  My  Recipe ").2
        "recipe_submit" 2 "my recipe").1 = false
    ∧ (claim_recipe_fingerprint id
        (claim_recipe_fingerprint id emptyDB "recipe_submit" 1 "  My  Recipe ").2
        "other_mission" 2 "my recipe").1 = true := by
  have h : normalize_recipe_text "my recipe" = normalize_recipe_text "  My  Recipe " := by
    decide
  obtain ⟨p1, p2⟩ := C6_fingerprint_dedup
  exact ⟨h, p1 id emptyDB "recipe_submit" 1 2 "  My  Recipe " "my recipe" h,
    p2 id emptyDB "recipe_submit" "other_mission" 1 2 "  My  Recipe " "my recipe"
      (by decide) (by decide)⟩

/-! ### Claim C7: the streak walk -/

theorem compute_streak_aux_spec (dates : Finset ℤ) (N : ℕ) :
    ∀ (fuel : ℕ) (today : ℤ), N < fuel →
      (∀ i : ℕ, i < N → today - (i : ℤ) ∈ dates) →
      today - (N : ℤ) ∉ dates →
      compute_streak_aux dates fuel today = N := by
  induction N with
  | zero =>
    intro fuel today hf hin hgap
    cases fuel with
    | zero => exact absurd hf (by omega)
    | succ f =>
      have hg : today ∉ dates := by simpa using hgap
      simp [compute_streak_aux, hg]
  | succ n ih =>
    intro fuel today hf hin hgap
    cases fuel with
    | zero => exact absurd hf (by omega)
    | succ f =>
      have h0 : today ∈ dates := by simpa using hin 0 (by omega)
      have h1 : ∀ i : ℕ, i < n → today - 1 - (i : ℤ) ∈ dates := by
        intro i hi
        have h := hin (i + 1) (by omega)
        have e : today - 1 - (i : ℤ) = today - ((i + 1 : ℕ) : ℤ) := by push_cast; ring
        rw [e]
        exact h
      have h2 : today - 1 - (n : ℤ) ∉ dates := by
        have e : today - 1 - (n : ℤ) = today - ((n + 1 : ℕ) : ℤ) := by push_cast; ring
        rw [e]
        exact hgap
      simp only [compute_streak_aux]
      rw [if_pos h0, ih f (today - 1) (by omega) h1 h2]
      omega

/-- C7: when the check-in date set contains the `N` consecutive days ending at
`today` but not the day before those `N` days, `compute_streak` returns
exactly `N`; the `N = 0` instance says a user with no check-in today has
streak 0, and a day missing from the set stops the backward walk. -/
theorem C7_streak_consecutive :
    ∀ (dates : Finset ℤ) (today : ℤ) (N : ℕ),
      (∀ i : ℕ, i < N → today - (i : ℤ) ∈ dates) →
      today - (N : ℤ) ∉ dates →
      compute_streak dates today = N := by
  intro dates today N hin hgap
  have hcard : N ≤ dates.card := by
    have hinj : Function.Injective (fun i : ℕ => today - (i : ℤ)) := by
      intro a b hab
      simp only at hab
      omega
    have hsub : (Finset.range N).image (fun i : ℕ => today - (i : ℤ)) ⊆ dates := by
      intro x hx
      obtain ⟨i, hi, rfl⟩ := Finset.mem_image.mp hx
      exact hin i (Finset.mem_range.mp hi)
    calc N = ((Finset.range N).image (fun i : ℕ => today - (i : ℤ))).card := by
          rw [Finset.card_image_of_injective _ hinj, Finset.card_range]
      _ ≤ dates.card := Finset.card_le_card hsub
  exact compute_streak_aux_spec dates N (dates.card + 1) today (by omega) hin hgap

/-- Concrete instance of C7: check-ins on days 10, 9, 8 and 5 give a streak of
3 on day 10 — the missed day 7 resets the count. -/
theorem C7_witness : compute_streak ({10, 9, 8, 5} : Finset ℤ) 10 = 3 := by
  apply C7_streak_consecutive
  · decide
  · decide

/-! ### User-table lemmas -/

theorem find?_map_key (l : List UserRow) (g : UserRow → UserRow) (p : UserRow → Bool)
    (hg : ∀ u, p (g u) = p u) :
    (l.map g).find? p = (l.find? p).map g := by
  induction l with
  | nil => rfl
  | cons h t ih =>
    by_cases hp : p h = true
    · simp [List.find?, hg, hp]
    · rw [Bool.not_eq_true] at hp
      simp [List.find?, hg, hp, ih]

theorem get_user_update (db : DB) (uid uid' : ℤ) (f : UserRow → UserRow)
    (hf : ∀ u, (f u).user_id = u.user_id) :
    get_user (update_user db uid f) uid' =
      (get_user db uid').map (fun u => if u.user_id == uid then f u else u) := by
  rw [get_user, update_user, get_user]
  apply find?_map_key
  intro u
  by_cases h : u.user_id == uid <;> simp [h, hf]

theorem get_user_user_id {db : DB} {uid : ℤ} {row : UserRow}
    (h : get_user db uid = some row) : row.user_id = uid := by
  have := List.find?_some h
  simpa using this

theorem get_user_mem {db : DB} {uid : ℤ} {row : UserRow}
    (h : get_user db uid = some row) : row ∈ db.users :=
  List.mem_of_find?_eq_some h

theorem get_user_update_self {db : DB} {uid : ℤ} {row : UserRow} (f : UserRow → UserRow)
    (hf : ∀ u, (f u).user_id = u.user_id) (h : get_user db uid = some row) :
    get_user (update_user db uid f) uid = some (f row) := by
  rw [get_user_update db uid uid f hf, h]
  simp [get_user_user_id h]

theorem get_user_update_other {db : DB} {uid uid' : ℤ} {row : UserRow} (f : UserRow → UserRow)
    (hf : ∀ u, (f u).user_id = u.user_id) (h : get_user db uid' = some row) (hne : uid' ≠ uid) :
    get_user (update_user db uid f) uid' = some row := by
  rw [get_user_update db uid uid' f hf, h]
  simp [get_user_user_id h, hne]

theorem get_user_congr {db db' : DB} (uid : ℤ) (h : db.users = db'.users) :
    get_user db uid = get_user db' uid := by
  rw [get_user, get_user, h]

/-! ### Wallet-confirmation lemmas -/

/-- The store produced by the success branch of `wallet_confirm`. -/
def wallet_confirm_applied (cfg : Config) (db : DB) (uid : ℤ) (row : UserRow) (P : String) :
    DB :=
  let db1 := update_user db uid (fun u =>
    { u with wallet_address := some P, wallet_pending := none, state := none })
  let db2 := (add_points_once db1 uid "wallet_register" "wallet_register"
    cfg.point_wallet_register).2
  match row.referred_by with
  | some ref => (add_points_once db2 ref ("referral:" ++ toString uid)
      "referral_wallet_connected" cfg.point_referral_qualified).2
  | none => db2

theorem dup_check_false {db : DB} {uid : ℤ} {P : String}
    (hdup : ∀ u ∈ db.users, ¬(u.wallet_address = some P ∧ u.user_id ≠ uid)) :
    db.users.any (fun u => u.wallet_address == some P && !(u.user_id == uid)) = false := by
  rw [List.any_eq_false]
  intro u hu
  intro hc
  simp only [Bool.and_eq_true, beq_iff_eq, Bool.not_eq_true', beq_eq_false_iff_ne] at hc
  exact hdup u hu hc

theorem wallet_confirm_success (cfg : Config) {db : DB} {uid : ℤ} {row : UserRow} {P : String}
    (hrow : get_user db uid = some row)
    (hw : row.wallet_address = none)
    (hp : row.wallet_pending = some P)
    (hdup : db.users.any (fun u => u.wallet_address == some P && !(u.user_id == uid)) = false) :
    wallet_confirm cfg db uid = (.success P, wallet_confirm_applied cfg db uid row P) := by
  rw [wallet_confirm, hrow]
  simp only [hw, hp, hdup]
  rfl

theorem wallet_confirm_duplicate (cfg : Config) {db : DB} {uid : ℤ} {row : UserRow} {P : String}
    (hrow : get_user db uid = some row)
    (hw : row.wallet_address = none)
    (hp : row.wallet_pending = some P)
    (hdup : db.users.any (fun u => u.wallet_address == some P && !(u.user_id == uid)) = true) :
    wallet_confirm cfg db uid = (.duplicate, db) := by
  rw [wallet_confirm, hrow]
  simp only [hw, hp, hdup]
  rfl

theorem wallet_confirm_registered (cfg : Config) {db : DB} {uid : ℤ} {row : UserRow} {W : String}
    (hrow : get_user db uid = some row)
    (hw : row.wallet_address = some W) :
    wallet_confirm cfg db uid = (.alreadyRegistered, db) := by
  rw [wallet_confirm, hrow]
  simp only [hw]

theorem wallet_confirm_applied_users (cfg : Config) (db : DB) (uid : ℤ) (row : UserRow)
    (P : String) :
    (wallet_confirm_applied cfg db uid row P).users = (update_user db uid (fun u =>
      { u with wallet_address := some P, wallet_pending := none, state := none })).users := by
  rw [wallet_confirm_applied]
  cases row.referred_by with
  | none => simp [add_points_once_users]
  | some ref => simp [add_points_once_users]

theorem wallet_confirm_applied_count (cfg : Config) {db : DB} {uid : ℤ} {row : UserRow}
    {P : String} (h0 : ledger_count db uid "wallet_register" = 0) :
    ledger_count (wallet_confirm_applied cfg db uid row P) uid "wallet_register" = 1 := by
  rw [wallet_confirm_applied]
  have h1 : ledger_count (update_user db uid (fun u =>
      { u with wallet_address := some P, wallet_pending := none, state := none }))
        uid "wallet_register" = 0 := by
    rw [ledger_count_congr uid "wallet_register" (by rfl : (update_user db uid _).ledger = db.ledger)]
    exact h0
  cases hr : row.referred_by with
  | none =>
    simp only []
    exact add_points_once_count_self "wallet_register" cfg.point_wallet_register h1
  | some ref =>
    simp only []
    apply add_points_once_count_stable
    exact add_points_once_count_self "wallet_register" cfg.point_wallet_register h1

theorem mem_update_of_ne {db : DB} {uid : ℤ} {u : UserRow} (f : UserRow → UserRow)
    (hu : u ∈ db.users) (hne : u.user_id ≠ uid) :
    u ∈ (update_user db uid f).users := by
  rw [update_user]
  refine List.mem_map.mpr ⟨u, hu, ?_⟩
  rw [if_neg (by simpa using hne)]

theorem mem_update_self {db : DB} {uid : ℤ} {u : UserRow} (f : UserRow → UserRow)
    (hu : u ∈ db.users) (heq : u.user_id = uid) :
    f u ∈ (update_user db uid f).users := by
  rw [update_user]
  refine List.mem_map.mpr ⟨u, hu, ?_⟩
  rw [if_pos (by simpa using heq)]

/-! ### Claim C4: first-time wallet confirmation is idempotent -/

/-- C4: with a staged pending address and no conflicting owner, confirming
promotes exactly that address to the single active wallet, puts the fixed
`wallet_register` award in the ledger exactly once, and a second confirmation
reports the wallet as already registered and changes nothing. -/
theorem C4_wallet_confirm_idempotent :
    ∀ cfg db uid row P,
      get_user db uid = some row →
      row.wallet_address = none →
      row.wallet_pending = some P →
      (∀ u ∈ db.users, ¬(u.wallet_address = some P ∧ u.user_id ≠ uid)) →
      ledger_count db uid "wallet_register" = 0 →
      (wallet_confirm cfg db uid).1 = .success P
      ∧ get_user (wallet_confirm cfg db uid).2 uid =
          some { row with wallet_address := some P, wallet_pending := none, state := none }
      ∧ ledger_count (wallet_confirm cfg db uid).2 uid "wallet_register" = 1
      ∧ wallet_confirm cfg (wallet_confirm cfg db uid).2 uid =
          (.alreadyRegistered, (wallet_confirm cfg db uid).2) := by
  intro cfg db uid row P hrow hw hp hdup h0
  have hsucc := wallet_confirm_success cfg hrow hw hp (dup_check_false hdup)
  rw [hsucc]
  have hget1 : get_user (wallet_confirm_applied cfg db uid row P) uid =
      some { row with wallet_address := some P, wallet_pending := none, state := none } := by
    rw [get_user_congr uid (wallet_confirm_applied_users cfg db uid row P)]
    exact get_user_update_self _ (fun u => rfl) hrow
  exact ⟨rfl, hget1, wallet_confirm_applied_count cfg h0, wallet_confirm_registered cfg hget1 rfl⟩

/-- Fixture for the C4 witness. -/
def rowW : UserRow := ⟨1, none, none, some "0xabc", 0, some "AWAIT_WALLET"⟩

/-- Fixture for the C4 witness. -/
def dbW : DB := ⟨[rowW], [], [], [], []⟩

/-- Fixture config with the default point values of the source. -/
def cfgW : Config := ⟨50, 100, 10, [], []⟩

/-- Concrete instance of C4. -/
theorem C4_witness :
    (wallet_confirm cfgW dbW 1).1 = .success "0xabc"
    ∧ get_user (wallet_confirm cfgW dbW 1).2 1 =
        some { rowW with wallet_address := some "0xabc", wallet_pending := none, state := none }
    ∧ ledger_count (wallet_confirm cfgW dbW 1).2 1 "wallet_register" = 1
    ∧ wallet_confirm cfgW (wallet_confirm cfgW dbW 1).2 1 =
        (.alreadyRegistered, (wallet_confirm cfgW dbW 1).2) :=
  C4_wallet_confirm_idempotent cfgW dbW 1 rowW "0xabc" (by decide) (by decide) (by decide)
    (by decide) (by decide)

/-! ### Claim C3: global wallet uniqueness -/

/-- C3: if user A holds confirmed address W, then user B staging the identical
address and confirming is rejected with the duplicate outcome and no store
change — B's wallet stays unset and A's row is untouched; and when two
unconfirmed users race to confirm the same staged address sequentially,
exactly the first succeeds and the second observes the duplicate rejection. -/
theorem C3_wallet_global_uniqueness :
    (∀ cfg db A B rowA rowB W,
      A ≠ B →
      get_user db A = some rowA → rowA.wallet_address = some W →
      get_user db B = some rowB → rowB.wallet_address = none →
      wallet_re_match W = true →
      (stage_wallet db B W).1 = true
      ∧ get_user (stage_wallet db B W).2 B = some { rowB with wallet_pending := some W }
      ∧ get_user (stage_wallet db B W).2 A = some rowA
      ∧ wallet_confirm cfg (stage_wallet db B W).2 B = (.duplicate, (stage_wallet db B W).2))
    ∧ (∀ cfg db A B rowA rowB W,
      A ≠ B →
      get_user db A = some rowA → rowA.wallet_address = none → rowA.wallet_pending = some W →
      get_user db B = some rowB → rowB.wallet_address = none → rowB.wallet_pending = some W →
      (∀ u ∈ db.users, u.wallet_address ≠ some W) →
      (wallet_confirm cfg db A).1 = .success W
      ∧ (wallet_confirm cfg (wallet_confirm cfg db A).2 B).1 = .duplicate) := by
  constructor
  · intro cfg db A B rowA rowB W hAB hrowA hWA hrowB hWB hre
    have hstage : stage_wallet db B W =
        (true, update_user db B (fun u => { u with wallet_pending := some W })) := by
      rw [stage_wallet, if_pos hre]
    rw [hstage]
    have hgB : get_user (update_user db B (fun u => { u with wallet_pending := some W })) B =
        some { rowB with wallet_pending := some W } :=
      get_user_update_self _ (fun u => rfl) hrowB
    have hgA : get_user (update_user db B (fun u => { u with wallet_pending := some W })) A =
        some rowA :=
      get_user_update_other _ (fun u => rfl) hrowA hAB
    refine ⟨rfl, hgB, hgA, ?_⟩
    apply wallet_confirm_duplicate cfg hgB hWB rfl
    apply List.any_eq_true.mpr
    refine ⟨rowA, ?_, ?_⟩
    · exact mem_update_of_ne _ (get_user_mem hrowA) (by rw [get_user_user_id hrowA]; exact hAB)
    · simp [hWA, get_user_user_id hrowA, hAB]
  · intro cfg db A B rowA rowB W hAB hrowA hWA hpA hrowB hWB hpB hall
    have hdupA : db.users.any (fun u => u.wallet_address == some W && !(u.user_id == A))
        = false :=
      dup_check_false (fun u hu hc => hall u hu hc.1)
    have hsucc := wallet_confirm_success cfg hrowA hWA hpA hdupA
    rw [hsucc]
    have husers := wallet_confirm_applied_users cfg db A rowA W
    have hgB : get_user (wallet_confirm_applied cfg db A rowA W) B = some rowB := by
      rw [get_user_congr B husers]
      exact get_user_update_other _ (fun u => rfl) hrowB (Ne.symm hAB)
    have hdupB : (wallet_confirm_applied cfg db A rowA W).users.any
        (fun u => u.wallet_address == some W && !(u.user_id == B)) = true := by
      rw [husers]
      apply List.any_eq_true.mpr
      refine ⟨{ rowA with wallet_address := some W, wallet_pending := none, state := none },
        ?_, ?_⟩
      · exact mem_update_self _ (get_user_mem hrowA) (get_user_user_id hrowA)
      · simp [get_user_user_id hrowA, hAB]
    rw [wallet_confirm_duplicate cfg hgB hWB hpB hdupB]
    exact ⟨rfl, rfl⟩

/-- Fixture address (0x + 40 hex chars) for concrete wallet scenarios. -/
def wAddr : String := "0xaaaaaaaaaaaaaaaaaaaaaaaaaaaaaaaaaaaaaaaa"

/-- Fixture: user 1 has confirmed `wAddr`. -/
def rowA3 : UserRow := ⟨1, none, some wAddr, none, 0, none⟩

/-- Fixture: user 2 has no wallet yet. -/
def rowB3 : UserRow := ⟨2, none, none, none, 0, some "AWAIT_WALLET"⟩

/-- Fixture store for the C3 witness. -/
def db3 : DB := ⟨[rowA3, rowB3], [], [], [], []⟩

/-- Concrete instance of C3: user 2 stages user 1's address and is rejected. -/
theorem C3_witness :
    (stage_wallet db3 2 wAddr).1 = true
    ∧ get_user (stage_wallet db3 2 wAddr).2 2 = some { rowB3 with wallet_pending := some wAddr }
    ∧ get_user (stage_wallet db3 2 wAddr).2 1 = some rowA3
    ∧ wallet_confirm cfgW (stage_wallet db3 2 wAddr).2 2 =
        (.duplicate, (stage_wallet db3 2 wAddr).2) :=
  C3_wallet_global_uniqueness.1 cfgW db3 1 2 rowA3 rowB3 wAddr (by decide) (by decide)
    (by decide) (by decide) (by decide) (by decide)

/-! ### Ledger-extension predicate: which idempotency keys an operation can add -/

/-- Store `db'` extends `db` by appended ledger rows all satisfying `P`. -/
def LedgerExt (db db' : DB) (P : LedgerEntry → Prop) : Prop :=
  ∃ new, db'.ledger = db.ledger ++ new ∧ ∀ e ∈ new, P e

theorem ledgerExt_of_eq {db db' : DB} {P : LedgerEntry → Prop} (h : db'.ledger = db.ledger) :
    LedgerExt db db' P :=
  ⟨[], by simp [h], by simp⟩

theorem ledgerExt_trans {db1 db2 db3 : DB} {P : LedgerEntry → Prop} :
    LedgerExt db1 db2 P → LedgerExt db2 db3 P → LedgerExt db1 db3 P := by
  rintro ⟨n1, h1, hp1⟩ ⟨n2, h2, hp2⟩
  refine ⟨n1 ++ n2, ?_, ?_⟩
  · rw [h2, h1, List.append_assoc]
  · intro e he
    rcases List.mem_append.mp he with h | h
    · exact hp1 e h
    · exact hp2 e h

theorem ledgerExt_add {db : DB} {uid : ℤ} {uk typ : String} {a : ℤ} {P : LedgerEntry → Prop}
    (hP : P ⟨uid, uk, typ, a⟩) :
    LedgerExt db (add_points_once db uid uk typ a).2 P := by
  rw [add_points_once]
  split
  · exact ⟨[], by simp, by simp⟩
  · exact ⟨[⟨uid, uk, typ, a⟩], rfl, by simpa⟩

theorem claim_fingerprint_ledger (digest : String → String) (db : DB) (m : String) (u : ℤ)
    (t : String) : (claim_recipe_fingerprint digest db m u t).2.ledger = db.ledger := by
  rw [claim_recipe_fingerprint]
  split <;> rfl

theorem claim_fingerprint_pending (digest : String → String) (db : DB) (m : String) (u : ℤ)
    (t : String) :
    (claim_recipe_fingerprint digest db m u t).2.pending_rewards = db.pending_rewards := by
  rw [claim_recipe_fingerprint]
  split <;> rfl

theorem record_submission_ledger (db : DB) (u : ℤ) (m p : String) :
    (record_submission db u m p).ledger = db.ledger := by
  rw [record_submission]
  split <;> rfl

theorem record_submission_pending (db : DB) (u : ℤ) (m p : String) :
    (record_submission db u m p).pending_rewards = db.pending_rewards := by
  rw [record_submission]
  split <;> rfl

theorem add_pending_reward_ledger (db : DB) (u : ℤ) (m uk : String) (a now d : ℤ) :
    (add_pending_reward db u m uk a now d).2.ledger = db.ledger := by
  rw [add_pending_reward]
  split <;> rfl

theorem add_pending_reward_pending_sub (db : DB) (u : ℤ) (m uk : String) (a now d : ℤ) :
    ∀ q ∈ (add_pending_reward db u m uk a now d).2.pending_rewards,
      q ∈ db.pending_rewards ∨ q = ⟨u, m, uk, a, now + d * 60⟩ := by
  intro q hq
  rw [add_pending_reward] at hq
  split at hq
  · exact Or.inl hq
  · rcases List.mem_append.mp hq with h | h
    · exact Or.inl h
    · exact Or.inr (List.mem_singleton.mp h)

theorem finish_submission_ledgerExt (db : DB) (uid : ℤ) (mission_id : String) (m : Mission)
    (normalized : String) (now : ℤ) :
    LedgerExt db (finish_submission db uid mission_id m normalized now).2
      (fun e => e.unique_key = "mission:" ++ mission_id) := by
  rw [finish_submission]
  split
  · apply ledgerExt_of_eq
    show (add_pending_reward (record_submission db uid mission_id normalized) uid mission_id
      ("mission:" ++ mission_id) m.points now m.delay_minutes).2.ledger = db.ledger
    rw [add_pending_reward_ledger, record_submission_ledger]
  · refine ledgerExt_trans
      (ledgerExt_of_eq (record_submission_ledger db uid mission_id normalized)) ?_
    exact ledgerExt_add rfl

theorem finish_submission_pending_sub (db : DB) (uid : ℤ) (mission_id : String) (m : Mission)
    (normalized : String) (now : ℤ) :
    ∀ q ∈ (finish_submission db uid mission_id m normalized now).2.pending_rewards,
      q ∈ db.pending_rewards ∨ q.unique_key = "mission:" ++ mission_id := by
  intro q hq
  rw [finish_submission] at hq
  split at hq
  · have hq2 : q ∈ (add_pending_reward (record_submission db uid mission_id normalized) uid
        mission_id ("mission:" ++ mission_id) m.points now m.delay_minutes).2.pending_rewards :=
      hq
    rcases add_pending_reward_pending_sub _ _ _ _ _ _ _ q hq2 with h | h
    · rw [record_submission_pending] at h
      exact Or.inl h
    · right
      rw [h]
  · have hq2 : q ∈ (record_submission db uid mission_id normalized).pending_rewards := by
      have heq : (set_state (add_points_once (record_submission db uid mission_id normalized)
          uid ("mission:" ++ mission_id) ("mission:" ++ mission_id) m.points).2 uid
            none).pending_rewards
          = (record_submission db uid mission_id normalized).pending_rewards := by
        show (add_points_once (record_submission db uid mission_id normalized)
          uid ("mission:" ++ mission_id) ("mission:" ++ mission_id)
            m.points).2.pending_rewards = _
        rw [add_points_once_pending]
      rw [heq] at hq
      exact hq
  -- the delayed branch already closed; immediate branch:
    rw [record_submission_pending] at hq2
    exact Or.inl hq2

theorem bonus_foldl_ledgerExt (uid : ℤ) (today_str : String) (streak : ℕ)
    {P : LedgerEntry → Prop} :
    ∀ (rules : List (ℤ × ℤ)) (acc : List (ℤ × ℤ) × DB),
      (∀ r ∈ rules,
        P ⟨uid, "streak_bonus:" ++ toString r.1 ++ ":" ++ today_str, "streak_bonus", r.2⟩) →
      LedgerExt acc.2
        ((rules.foldl
          (fun (acc : List (ℤ × ℤ) × DB) rule =>
            if (streak : ℤ) = rule.1 then
              let bres := add_points_once acc.2 uid
                ("streak_bonus:" ++ toString rule.1 ++ ":" ++ today_str) "streak_bonus" rule.2
              (if bres.1 then acc.1 ++ [rule] else acc.1, bres.2)
            else acc) acc).2) P := by
  intro rules
  induction rules with
  | nil =>
    intro acc h
    exact ledgerExt_of_eq rfl
  | cons r t ih =>
    intro acc h
    rw [List.foldl_cons]
    refine ledgerExt_trans ?_ (ih _ (fun x hx => h x (List.mem_cons_of_mem r hx)))
    by_cases hc : (streak : ℤ) = r.1
    · simp only [if_pos hc]
      exact ledgerExt_add (h r (List.mem_cons_self r t))
    · simp only [if_neg hc]
      exact ledgerExt_of_eq rfl

theorem ledgerExt_add_of_eq {db db' : DB} {uid : ℤ} {uk typ : String} {a : ℤ}
    {P : LedgerEntry → Prop} (h : db'.ledger = db.ledger) (hP : P ⟨uid, uk, typ, a⟩) :
    LedgerExt db (add_points_once db' uid uk typ a).2 P := by
  rw [add_points_once]
  split
  · exact ⟨[], by simp [h], by simp⟩
  · exact ⟨[⟨uid, uk, typ, a⟩], by simp [h], by simpa⟩

/-! ### Claim C1: the idempotency-key conventions -/

/-- C1 (amended): every ledger row inserted by the daily check-in handler has
key `daily_checkin:<date>` or, for a configured bonus rule, key
`streak_bonus:<days>:<date>`; every ledger row inserted by a mission
submission has key `mission:<mission id>`, and every pending reward it
schedules stores that same key; every ledger row inserted by wallet
confirmation is either the user's fixed `wallet_register` key or the
referrer's `referral:<referred user id>` key. -/
theorem C1_amended_key_conventions :
    (∀ cfg (fmt : ℤ → String) (parse : String → Option ℤ) db uid today,
      LedgerExt db (daily_checkin_step cfg fmt parse db uid today).2 (fun e =>
        e.unique_key = "daily_checkin:" ++ fmt today
        ∨ ∃ r ∈ cfg.streak_bonuses,
            e.unique_key = "streak_bonus:" ++ toString r.1 ++ ":" ++ fmt today))
    ∧ (∀ cfg (digest : String → String) db uid mission_id text now,
      LedgerExt db (mission_submit cfg digest db uid mission_id text now).2
        (fun e => e.unique_key = "mission:" ++ mission_id)
      ∧ ∀ q ∈ (mission_submit cfg digest db uid mission_id text now).2.pending_rewards,
          q ∈ db.pending_rewards ∨ q.unique_key = "mission:" ++ mission_id)
    ∧ (∀ cfg db uid,
      LedgerExt db (wallet_confirm cfg db uid).2 (fun e =>
        (e.user_id = uid ∧ e.unique_key = "wallet_register")
        ∨ e.unique_key = "referral:" ++ toString uid)) := by
  refine ⟨?_, ?_, ?_⟩
  · intro cfg fmt parse db uid today
    rw [daily_checkin_step]
    cases hget : get_user db uid with
    | none => exact ledgerExt_of_eq rfl
    | some row =>
      dsimp only
      split
      · exact ledgerExt_of_eq rfl
      · split
        · exact ledgerExt_add (Or.inl rfl)
        · refine ledgerExt_trans
            (@ledgerExt_add db uid ("daily_checkin:" ++ fmt today) "daily_checkin"
              cfg.point_daily_checkin _ (Or.inl rfl)) ?_
          refine bonus_foldl_ledgerExt uid (fmt today) _ cfg.streak_bonuses _ ?_
          intro r hr
          exact Or.inr ⟨r, hr, rfl⟩
  · intro cfg digest db uid mission_id text now
    rw [mission_submit]
    cases hfind : cfg.missions.find? (fun m => m.id == mission_id) with
    | none =>
      dsimp only
      constructor
      · exact ledgerExt_of_eq rfl
      · intro q hq
        exact Or.inl hq
    | some m =>
      dsimp only
      cases hval : validate m.validator text with
      | mk ok p =>
        cases p with
        | mk err norm =>
          cases ok with
          | false =>
            dsimp only
            constructor
            · exact ledgerExt_of_eq rfl
            · intro q hq
              exact Or.inl hq
          | true =>
            dsimp only
            split
            · cases hcl : claim_recipe_fingerprint digest db mission_id uid norm with
              | mk b db1 =>
                have hl : db1.ledger = db.ledger := by
                  have hx := claim_fingerprint_ledger digest db mission_id uid norm
                  rw [hcl] at hx
                  exact hx
                have hpend : db1.pending_rewards = db.pending_rewards := by
                  have hx := claim_fingerprint_pending digest db mission_id uid norm
                  rw [hcl] at hx
                  exact hx
                cases b with
                | false =>
                  dsimp only
                  constructor
                  · exact ledgerExt_of_eq hl
                  · intro q hq
                    rw [hpend] at hq
                    exact Or.inl hq
                | true =>
                  dsimp only
                  constructor
                  · exact ledgerExt_trans (ledgerExt_of_eq hl)
                      (finish_submission_ledgerExt db1 uid mission_id m norm now)
                  · intro q hq
                    rcases finish_submission_pending_sub db1 uid mission_id m norm now q hq
                      with h | h
                    · rw [hpend] at h
                      exact Or.inl h
                    · exact Or.inr h
            · constructor
              · exact finish_submission_ledgerExt db uid mission_id m norm now
              · exact finish_submission_pending_sub db uid mission_id m norm now
  · intro cfg db uid
    rw [wallet_confirm]
    cases hget : get_user db uid with
    | none => exact ledgerExt_of_eq rfl
    | some row =>
      dsimp only
      cases hw : row.wallet_address with
      | some w => exact ledgerExt_of_eq rfl
      | none =>
        dsimp only
        cases hp : row.wallet_pending with
        | none => exact ledgerExt_of_eq rfl
        | some pending =>
          dsimp only
          split
          · exact ledgerExt_of_eq rfl
          · cases hr : row.referred_by with
            | none => exact ledgerExt_add_of_eq rfl (Or.inl ⟨rfl, rfl⟩)
            | some ref =>
              refine ledgerExt_trans ?_ (ledgerExt_add (Or.inr rfl))
              exact ledgerExt_add_of_eq rfl (Or.inl ⟨rfl, rfl⟩)

/-- Day rendering fixture: days 0, 1, 2 are 2024-01-01 .. 2024-01-03. -/
def fmtC1 : ℤ → String := fun d =>
  if d = 0 then "2024-01-01"
  else if d = 1 then "2024-01-02"
  else if d = 2 then "2024-01-03"
  else ""

/-- Inverse of `fmtC1` on the three dates. -/
def parseC1 : String → Option ℤ := fun s =>
  if s = "2024-01-01" then some 0
  else if s = "2024-01-02" then some 1
  else if s = "2024-01-03" then some 2
  else none

/-- Config fixture with a 3-day/+50 streak bonus. -/
def cfgC1 : Config := ⟨50, 100, 10, [(3, 50)], []⟩

/-- Store fixture: user 1 has a wallet and checked in on 01-01 and 01-02. -/
def dbC1 : DB := ⟨[⟨1, none, some wAddr, none, 0, none⟩],
  [⟨1, "daily_checkin:2024-01-01", "daily_checkin", 10⟩,
   ⟨1, "daily_checkin:2024-01-02", "daily_checkin", 10⟩], [], [], []⟩

/-- C1 is false as stated: checking in on 2024-01-03 (the third consecutive
day, triggering the 3-day streak bonus) inserts the keys
`daily_checkin:2024-01-03` and `streak_bonus:3:2024-01-03`, not the
`checkin:2024-01-03` and `streak:3:2024-01-03` the claim prescribes. -/
theorem C1_counterexample :
    ((daily_checkin_step cfgC1 fmtC1 parseC1 dbC1 1 2).2.ledger.map
        (fun e => e.unique_key)) =
      ["daily_checkin:2024-01-01", "daily_checkin:2024-01-02",
       "daily_checkin:2024-01-03", "streak_bonus:3:2024-01-03"]
    ∧ ¬ ((daily_checkin_step cfgC1 fmtC1 parseC1 dbC1 1 2).2.ledger.map
        (fun e => e.unique_key)).contains "checkin:2024-01-03"
    ∧ ¬ ((daily_checkin_step cfgC1 fmtC1 parseC1 dbC1 1 2).2.ledger.map
        (fun e => e.unique_key)).contains "streak:3:2024-01-03" := by
  decide

/-! ### Settlement lemmas (`process_due_rewards`) -/

theorem process_step_users (uid : ℤ) (acc : List (String × ℤ) × DB) (r : PendingReward) :
    (process_step uid acc r).2.users = acc.2.users := by
  rw [process_step]
  dsimp only
  rw [add_points_once_users]

theorem process_step_submissions (uid : ℤ) (acc : List (String × ℤ) × DB) (r : PendingReward) :
    (process_step uid acc r).2.submissions = acc.2.submissions := by
  rw [process_step]
  dsimp only
  rw [add_points_once_submissions]

theorem process_step_fingerprints (uid : ℤ) (acc : List (String × ℤ) × DB) (r : PendingReward) :
    (process_step uid acc r).2.fingerprints = acc.2.fingerprints := by
  rw [process_step]
  dsimp only
  rw [add_points_once_fingerprints]

theorem process_step_ledger_count (uid u : ℤ) (uk : String) (acc : List (String × ℤ) × DB)
    (r : PendingReward) :
    ledger_count (process_step uid acc r).2 u uk =
      ledger_count (add_points_once acc.2 uid r.unique_key ("mission:" ++ r.mission_id)
        r.amount).2 u uk := by
  apply ledger_count_congr
  rw [process_step]

theorem process_step_pending (uid : ℤ) (acc : List (String × ℤ) × DB) (r : PendingReward) :
    (process_step uid acc r).2.pending_rewards =
      acc.2.pending_rewards.filter
        (fun p => !(p.user_id == uid && p.mission_id == r.mission_id)) := by
  rw [process_step]
  dsimp only
  rw [add_points_once_pending]

theorem process_foldl_users (uid : ℤ) (rows : List PendingReward) :
    ∀ acc, ((rows.foldl (process_step uid) acc).2).users = acc.2.users := by
  induction rows with
  | nil => intro acc; rfl
  | cons r t ih =>
    intro acc
    rw [List.foldl_cons, ih, process_step_users]

theorem process_foldl_submissions (uid : ℤ) (rows : List PendingReward) :
    ∀ acc, ((rows.foldl (process_step uid) acc).2).submissions = acc.2.submissions := by
  induction rows with
  | nil => intro acc; rfl
  | cons r t ih =>
    intro acc
    rw [List.foldl_cons, ih, process_step_submissions]

theorem process_foldl_fingerprints (uid : ℤ) (rows : List PendingReward) :
    ∀ acc, ((rows.foldl (process_step uid) acc).2).fingerprints = acc.2.fingerprints := by
  induction rows with
  | nil => intro acc; rfl
  | cons r t ih =>
    intro acc
    rw [List.foldl_cons, ih, process_step_fingerprints]

theorem process_foldl_count_stable (uid u : ℤ) (uk : String) (rows : List PendingReward) :
    ∀ acc, ledger_count acc.2 u uk = 1 →
      ledger_count ((rows.foldl (process_step uid) acc).2) u uk = 1 := by
  induction rows with
  | nil => intro acc h; exact h
  | cons r t ih =>
    intro acc h
    rw [List.foldl_cons]
    apply ih
    rw [process_step_ledger_count]
    exact add_points_once_count_stable _ _ h

theorem process_foldl_count_one (uid : ℤ) (uk : String) (rows : List PendingReward) :
    ∀ acc, ledger_count acc.2 uid uk = 0 →
      (∃ r ∈ rows, r.unique_key = uk) →
      ledger_count ((rows.foldl (process_step uid) acc).2) uid uk = 1 := by
  induction rows with
  | nil =>
    rintro acc h ⟨r, hr, -⟩
    exact absurd hr (List.not_mem_nil r)
  | cons r t ih =>
    rintro acc h ⟨r', hr', hk⟩
    rw [List.foldl_cons]
    by_cases hku : r.unique_key = uk
    · apply process_foldl_count_stable
      rw [process_step_ledger_count, hku]
      exact add_points_once_count_self _ _ h
    · rcases List.mem_cons.mp hr' with rfl | hmem
      · exact absurd hk hku
      · apply ih
        · rw [process_step_ledger_count,
            add_points_once_count_ne _ _ (fun hc => hku hc.2)]
          exact h
        · exact ⟨r', hmem, hk⟩

theorem process_foldl_count_keep (uid u : ℤ) (uk : String) (rows : List PendingReward) :
    ∀ acc, (∀ r ∈ rows, ¬(uid = u ∧ r.unique_key = uk)) →
      ledger_count ((rows.foldl (process_step uid) acc).2) u uk = ledger_count acc.2 u uk := by
  induction rows with
  | nil => intro acc h; rfl
  | cons r t ih =>
    intro acc h
    rw [List.foldl_cons, ih _ (fun x hx => h x (List.mem_cons_of_mem r hx)),
      process_step_ledger_count, add_points_once_count_ne _ _ (h r (List.mem_cons_self r t))]

theorem process_foldl_pending (uid : ℤ) (rows : List PendingReward) :
    ∀ acc q, q ∈ ((rows.foldl (process_step uid) acc).2).pending_rewards →
      q ∈ acc.2.pending_rewards
        ∧ ∀ r ∈ rows, ¬(q.user_id = uid ∧ q.mission_id = r.mission_id) := by
  induction rows with
  | nil =>
    intro acc q hq
    exact ⟨hq, by simp⟩
  | cons r t ih =>
    intro acc q hq
    rw [List.foldl_cons] at hq
    obtain ⟨hq1, hq2⟩ := ih _ q hq
    rw [process_step_pending] at hq1
    have hm := List.mem_filter.mp hq1
    refine ⟨hm.1, ?_⟩
    intro r' hr'
    rcases List.mem_cons.mp hr' with rfl | hmem
    · intro hc
      have hf := hm.2
      rw [Bool.not_eq_true'] at hf
      simp [hc.1, hc.2] at hf
    · exact hq2 r' hmem

theorem process_due_users (db : DB) (uid now : ℤ) :
    (process_due_rewards db uid now).2.users = db.users := by
  rw [process_due_rewards]
  exact process_foldl_users uid _ ([], db)

theorem process_due_submissions (db : DB) (uid now : ℤ) :
    (process_due_rewards db uid now).2.submissions = db.submissions := by
  rw [process_due_rewards]
  exact process_foldl_submissions uid _ ([], db)

theorem process_due_fingerprints (db : DB) (uid now : ℤ) :
    (process_due_rewards db uid now).2.fingerprints = db.fingerprints := by
  rw [process_due_rewards]
  exact process_foldl_fingerprints uid _ ([], db)

theorem process_due_count_one (db : DB) (uid now : ℤ) (p : PendingReward)
    (hp : p ∈ db.pending_rewards) (hu : p.user_id = uid) (he : p.available_at_ts ≤ now)
    (h0 : ledger_count db uid p.unique_key = 0) :
    ledger_count (process_due_rewards db uid now).2 uid p.unique_key = 1 := by
  rw [process_due_rewards]
  apply process_foldl_count_one
  · exact h0
  · exact ⟨p, List.mem_filter.mpr ⟨hp, by simp [hu, he]⟩, rfl⟩

theorem process_due_clears (db : DB) (uid now : ℤ) :
    ∀ q ∈ (process_due_rewards db uid now).2.pending_rewards,
      ¬(q.user_id = uid ∧ q.available_at_ts ≤ now) := by
  intro q hq hc
  rw [process_due_rewards] at hq
  obtain ⟨hq1, hq2⟩ := process_foldl_pending uid _ ([], db) q hq
  have hqrow : q ∈ db.pending_rewards.filter
      (fun r => r.user_id == uid && decide (r.available_at_ts ≤ now)) :=
    List.mem_filter.mpr ⟨hq1, by simp [hc.1, hc.2]⟩
  exact hq2 q hqrow ⟨hc.1, rfl⟩

theorem process_due_count_keep (db : DB) (uid u now : ℤ) (uk : String)
    (h : ∀ r ∈ db.pending_rewards, r.user_id = uid → r.available_at_ts ≤ now →
      ¬(uid = u ∧ r.unique_key = uk)) :
    ledger_count (process_due_rewards db uid now).2 u uk = ledger_count db u uk := by
  rw [process_due_rewards]
  apply process_foldl_count_keep
  intro r hr
  have hm := List.mem_filter.mp hr
  have hpred := hm.2
  simp only [Bool.and_eq_true, beq_iff_eq, decide_eq_true_eq] at hpred
  exact h r hm.1 hpred.1 hpred.2

/-! ### Stability lemmas for the text-handler branches -/

theorem stage_wallet_ledger (db : DB) (uid : ℤ) (t : String) :
    (stage_wallet db uid t).2.ledger = db.ledger := by
  rw [stage_wallet]
  split <;> rfl

theorem stage_wallet_pending (db : DB) (uid : ℤ) (t : String) :
    (stage_wallet db uid t).2.pending_rewards = db.pending_rewards := by
  rw [stage_wallet]
  split <;> rfl

theorem finish_submission_ledger_delay {db : DB} {uid : ℤ} {mission_id : String} {m : Mission}
    {normalized : String} {now : ℤ} (hd : 0 < m.delay_minutes) :
    (finish_submission db uid mission_id m normalized now).2.ledger = db.ledger := by
  rw [finish_submission]
  dsimp only
  rw [if_pos hd]
  show (add_pending_reward (record_submission db uid mission_id normalized) uid mission_id
    ("mission:" ++ mission_id) m.points now m.delay_minutes).2.ledger = db.ledger
  rw [add_pending_reward_ledger, record_submission_ledger]

theorem finish_submission_count_stable {db : DB} {u uid : ℤ} {uk mission_id : String}
    {m : Mission} {normalized : String} {now : ℤ} (h : ledger_count db u uk = 1) :
    ledger_count (finish_submission db uid mission_id m normalized now).2 u uk = 1 := by
  rw [finish_submission]
  dsimp only
  split
  · rw [ledger_count_congr u uk (by
      show (add_pending_reward (record_submission db uid mission_id normalized) uid mission_id
        ("mission:" ++ mission_id) m.points now m.delay_minutes).2.ledger = db.ledger
      rw [add_pending_reward_ledger, record_submission_ledger])]
    exact h
  · show ledger_count (add_points_once (record_submission db uid mission_id normalized) uid
      ("mission:" ++ mission_id) ("mission:" ++ mission_id) m.points).2 u uk = 1
    apply add_points_once_count_stable
    rw [ledger_count_congr u uk (record_submission_ledger db uid mission_id normalized)]
    exact h

theorem finish_submission_pending_ts (db : DB) (uid : ℤ) (mission_id : String) (m : Mission)
    (normalized : String) (now : ℤ) :
    ∀ q ∈ (finish_submission db uid mission_id m normalized now).2.pending_rewards,
      q ∈ db.pending_rewards ∨ now < q.available_at_ts := by
  intro q hq
  rw [finish_submission] at hq
  dsimp only at hq
  split at hq
  · have hq2 : q ∈ (add_pending_reward (record_submission db uid mission_id normalized) uid
        mission_id ("mission:" ++ mission_id) m.points now m.delay_minutes).2.pending_rewards :=
      hq
    rcases add_pending_reward_pending_sub _ _ _ _ _ _ _ q hq2 with h | h
    · rw [record_submission_pending] at h
      exact Or.inl h
    · right
      rw [h]
      have hpos : (0 : ℤ) < m.delay_minutes * 60 := by
        have h60 : (0 : ℤ) < 60 := by norm_num
        exact mul_pos (by assumption) h60
      dsimp only
      omega
  · have hq2 : q ∈ (record_submission db uid mission_id normalized).pending_rewards := by
      have heq : (set_state (add_points_once (record_submission db uid mission_id normalized)
          uid ("mission:" ++ mission_id) ("mission:" ++ mission_id) m.points).2 uid
            none).pending_rewards
          = (record_submission db uid mission_id normalized).pending_rewards := by
        show (add_points_once (record_submission db uid mission_id normalized)
          uid ("mission:" ++ mission_id) ("mission:" ++ mission_id)
            m.points).2.pending_rewards = _
        rw [add_points_once_pending]
      rw [heq] at hq
      exact hq
    rw [record_submission_pending] at hq2
    exact Or.inl hq2

theorem mission_submit_count_stable {cfg : Config} {digest : String → String} {db : DB}
    {u uid : ℤ} {uk mission_id text : String} {now : ℤ} (h : ledger_count db u uk = 1) :
    ledger_count (mission_submit cfg digest db uid mission_id text now).2 u uk = 1 := by
  rw [mission_submit]
  cases hfind : cfg.missions.find? (fun m => m.id == mission_id) with
  | none =>
    dsimp only
    rw [ledger_count_congr u uk (by rfl : (set_state db uid none).ledger = db.ledger)]
    exact h
  | some m =>
    dsimp only
    cases hval : validate m.validator text with
    | mk ok p =>
      cases p with
      | mk err norm =>
        cases ok with
        | false => exact h
        | true =>
          dsimp only
          split
          · cases hcl : claim_recipe_fingerprint digest db mission_id uid norm with
            | mk b db1 =>
              have hl : db1.ledger = db.ledger := by
                have hx := claim_fingerprint_ledger digest db mission_id uid norm
                rw [hcl] at hx
                exact hx
              have hc1 : ledger_count db1 u uk = 1 := by
                rw [ledger_count_congr u uk hl]
                exact h
              cases b with
              | false => exact hc1
              | true => exact finish_submission_count_stable hc1
          · exact finish_submission_count_stable h

theorem mission_submit_pending_ts (cfg : Config) (digest : String → String) (db : DB)
    (uid : ℤ) (mission_id text : String) (now : ℤ) :
    ∀ q ∈ (mission_submit cfg digest db uid mission_id text now).2.pending_rewards,
      q ∈ db.pending_rewards ∨ now < q.available_at_ts := by
  intro q hq
  rw [mission_submit] at hq
  rcases hfind : cfg.missions.find? (fun m => m.id == mission_id) with - | m
  · rw [hfind] at hq
    exact Or.inl hq
  · rw [hfind] at hq
    dsimp only at hq
    rcases hval : validate m.validator text with ⟨ok, err, norm⟩
    rw [hval] at hq
    cases ok with
    | false => exact Or.inl hq
    | true =>
      dsimp only at hq
      split at hq
      · rcases hcl : claim_recipe_fingerprint digest db mission_id uid norm with ⟨b, db1⟩
        rw [hcl] at hq
        have hpend : db1.pending_rewards = db.pending_rewards := by
          have hx := claim_fingerprint_pending digest db mission_id uid norm
          rw [hcl] at hx
          exact hx
        cases b with
        | false =>
          dsimp only at hq
          rw [hpend] at hq
          exact Or.inl hq
        | true =>
          dsimp only at hq
          rcases finish_submission_pending_ts db1 uid mission_id m norm now q hq with h | h
          · rw [hpend] at h
            exact Or.inl h
          · exact Or.inr h
      · exact finish_submission_pending_ts db uid mission_id m norm now q hq

/-! ### Claim C5: delayed rewards settle on the next interaction -/

/-- C5: a submission for a delay-configured mission inserts no ledger row;
`process_due_rewards` credits an eligible pending reward under its stored
idempotency key exactly once (when not yet credited) and leaves no eligible
pending row behind; and the same two facts hold across a full text
interaction (`handle_state_text`), which runs the settlement first, whatever
conversation state the user is in. -/
theorem C5_delayed_reward_settlement :
    (∀ cfg (digest : String → String) db uid mission_id text now m,
      cfg.missions.find? (fun mm => mm.id == mission_id) = some m →
      0 < m.delay_minutes →
      (mission_submit cfg digest db uid mission_id text now).2.ledger = db.ledger)
    ∧ (∀ db uid now p, p ∈ db.pending_rewards → p.user_id = uid →
        p.available_at_ts ≤ now → ledger_count db uid p.unique_key = 0 →
        ledger_count (process_due_rewards db uid now).2 uid p.unique_key = 1)
    ∧ (∀ db uid now, ∀ q ∈ (process_due_rewards db uid now).2.pending_rewards,
        ¬(q.user_id = uid ∧ q.available_at_ts ≤ now))
    ∧ (∀ cfg (digest : String → String) db uid text now p,
        p ∈ db.pending_rewards → p.user_id = uid → p.available_at_ts ≤ now →
        ledger_count db uid p.unique_key = 0 →
        ledger_count (handle_state_text cfg digest db uid text now).2.2 uid p.unique_key = 1
        ∧ ∀ q ∈ (handle_state_text cfg digest db uid text now).2.2.pending_rewards,
            ¬(q.user_id = uid ∧ q.available_at_ts ≤ now)) := by
  refine ⟨?_, ?_, ?_, ?_⟩
  · intro cfg digest db uid mission_id text now m hfind hd
    rw [mission_submit, hfind]
    dsimp only
    rcases hval : validate m.validator text with ⟨ok, err, norm⟩
    cases ok with
    | false => rfl
    | true =>
      dsimp only
      split
      · rcases hcl : claim_recipe_fingerprint digest db mission_id uid norm with ⟨b, db1⟩
        have hl : db1.ledger = db.ledger := by
          have hx := claim_fingerprint_ledger digest db mission_id uid norm
          rw [hcl] at hx
          exact hx
        cases b with
        | false => exact hl
        | true =>
          rw [finish_submission_ledger_delay hd]
          exact hl
      · exact finish_submission_ledger_delay hd
  · intro db uid now p hp hu he h0
    exact process_due_count_one db uid now p hp hu he h0
  · intro db uid now
    exact process_due_clears db uid now
  · intro cfg digest db uid text now p hp hu he h0
    have hc1 : ledger_count (process_due_rewards db uid now).2 uid p.unique_key = 1 :=
      process_due_count_one db uid now p hp hu he h0
    have hcl := process_due_clears db uid now
    rw [handle_state_text]
    dsimp only
    cases hget : get_user db uid with
    | none => exact ⟨hc1, hcl⟩
    | some row =>
      dsimp only
      split
      · exact ⟨hc1, hcl⟩
      · split
        · dsimp only
          constructor
          · rw [ledger_count_congr uid p.unique_key (stage_wallet_ledger _ uid (pyStrip text))]
            exact hc1
          · intro q hq
            rw [stage_wallet_pending] at hq
            exact hcl q hq
        · split
          · dsimp only
            constructor
            · rw [ledger_count_congr uid p.unique_key
                (stage_wallet_ledger _ uid (pyStrip text))]
              exact hc1
            · intro q hq
              rw [stage_wallet_pending] at hq
              exact hcl q hq
          · cases hdp : dropPre "MISSION:".data (pyStrip (row.state.getD "")).data with
            | none => exact ⟨hc1, hcl⟩
            | some rest =>
              dsimp only
              constructor
              · exact mission_submit_count_stable hc1
              · intro q hq
                rcases mission_submit_pending_ts cfg digest _ uid (String.mk rest)
                    (pyStrip text) now q hq with h | h
                · exact hcl q h
                · intro hcq
                  exact absurd hcq.2 (not_le.mpr h)

/-- Mission fixture: 20 points after a 30 minute delay, no validator. -/
def mX : Mission := ⟨"X", 20, 30, ""⟩

/-- Config fixture for the C5 witness. -/
def cfg5 : Config := ⟨50, 100, 10, [], [mX]⟩

/-- Store fixture: user 1 has an eligible pending reward for mission X. -/
def db5 : DB := ⟨[⟨1, none, some wAddr, none, 0, none⟩], [], [], [],
  [⟨1, "X", "mission:X", 20, 100⟩]⟩

/-- Concrete instance of C5: submitting the delayed mission adds no ledger
row; a later message settles the pending reward into exactly one `mission:X`
ledger row and leaves no eligible pending row. -/
theorem C5_witness :
    (mission_submit cfg5 id emptyDB 1 "X" "whatever" 50).2.ledger = emptyDB.ledger
    ∧ ledger_count (handle_state_text cfg5 id db5 1 "hello" 2000).2.2 1 "mission:X" = 1
    ∧ ∀ q ∈ (handle_state_text cfg5 id db5 1 "hello" 2000).2.2.pending_rewards,
        ¬(q.user_id = 1 ∧ q.available_at_ts ≤ 2000) := by
  obtain ⟨p1, p2, p3, p4⟩ := C5_delayed_reward_settlement
  have h1 := p1 cfg5 id emptyDB 1 "X" "whatever" 50 mX (by decide) (by decide)
  have h4 := p4 cfg5 id db5 1 "hello" 2000 ⟨1, "X", "mission:X", 20, 100⟩ (by decide)
    (by decide) (by decide) (by decide)
  exact ⟨h1, h4.1, h4.2⟩

/-! ### Claim C8: a fingerprint rejection has no side effects -/

/-- C8: when a `recipe_submit` submission passes validation but the content
fingerprint is already claimed, the whole interaction leaves the store exactly
as the preceding settlement pass left it: the outcome is the duplicate
rejection, no submission row is recorded, the fingerprint table is unchanged,
the user's row (and so the awaiting-mission conversation state) is untouched,
and no `mission:recipe_submit` ledger row is added for the user (the ledger
count for that key is unchanged whenever no pending reward carries it). -/
theorem C8_duplicate_rejection_no_side_effects :
    ∀ cfg (digest : String → String) db uid text now row m norm,
      get_user db uid = some row →
      row.state = some "MISSION:recipe_submit" →
      cfg.missions.find? (fun mm => mm.id == "recipe_submit") = some m →
      validate m.validator (pyStrip text) = (true, "", norm) →
      (∃ f ∈ db.fingerprints, f.mission_id = "recipe_submit"
        ∧ f.fingerprint = digest (normalize_recipe_text norm)) →
      (handle_state_text cfg digest db uid text now).2.1 =
          .missionOutcome .duplicateRecipe
      ∧ (handle_state_text cfg digest db uid text now).2.2 =
          (process_due_rewards db uid now).2
      ∧ (handle_state_text cfg digest db uid text now).2.2.submissions = db.submissions
      ∧ (handle_state_text cfg digest db uid text now).2.2.fingerprints = db.fingerprints
      ∧ get_user (handle_state_text cfg digest db uid text now).2.2 uid = some row
      ∧ ((∀ q ∈ db.pending_rewards,
            ¬(q.user_id = uid ∧ q.unique_key = "mission:recipe_submit")) →
          ledger_count (handle_state_text cfg digest db uid text now).2.2 uid
            "mission:recipe_submit" = ledger_count db uid "mission:recipe_submit") := by
  intro cfg digest db uid text now row m norm hget hstate hfind hval hfp
  have hany : (process_due_rewards db uid now).2.fingerprints.any
      (fun f => f.mission_id == "recipe_submit"
        && f.fingerprint == digest (normalize_recipe_text norm)) = true := by
    rw [process_due_fingerprints]
    obtain ⟨f, hf, h1, h2⟩ := hfp
    exact List.any_eq_true.mpr ⟨f, hf, by simp [h1, h2]⟩
  have hclaim : claim_recipe_fingerprint digest (process_due_rewards db uid now).2
      "recipe_submit" uid norm = (false, (process_due_rewards db uid now).2) := by
    rw [claim_recipe_fingerprint, if_pos hany]
  have hms : mission_submit cfg digest (process_due_rewards db uid now).2 uid
      "recipe_submit" (pyStrip text) now =
        (.duplicateRecipe, (process_due_rewards db uid now).2) := by
    rw [mission_submit, hfind]
    dsimp only
    rw [hval]
    dsimp only
    rw [if_pos rfl, hclaim]
  have hhandle : handle_state_text cfg digest db uid text now =
      ((process_due_rewards db uid now).1, .missionOutcome .duplicateRecipe,
        (process_due_rewards db uid now).2) := by
    rw [handle_state_text]
    dsimp only
    rw [hget]
    dsimp only
    rw [hstate]
    dsimp only [Option.getD]
    rw [if_neg (by decide), if_neg (by decide), if_neg (by decide)]
    rw [show dropPre "MISSION:".data (pyStrip "MISSION:recipe_submit").data =
      some ("recipe_submit".data) from by decide]
    dsimp only
    rw [show String.mk "recipe_submit".data = "recipe_submit" from rfl]
    rw [hms]
  rw [hhandle]
  refine ⟨rfl, rfl, process_due_submissions db uid now,
    process_due_fingerprints db uid now, ?_, ?_⟩
  · rw [get_user_congr uid (process_due_users db uid now)]
    exact hget
  · intro hnp
    exact process_due_count_keep db uid uid now "mission:recipe_submit"
      (fun r hr hru _ hc => hnp r hr ⟨hru, hc.2⟩)

/-- Fixture: user 1 is awaiting the `recipe_submit` mission. -/
def row8 : UserRow := ⟨1, none, some wAddr, none, 0, some "MISSION:recipe_submit"⟩

/-- Config fixture for the C8 witness. -/
def cfg8 : Config := ⟨50, 100, 10, [], [⟨"recipe_submit", 30, 0, ""⟩]⟩

/-- Store fixture: the submitted content is already fingerprinted by user 2. -/
def db8 : DB := ⟨[row8], [], [], [⟨"recipe_submit", "my stolen recipe", 2⟩], []⟩

/-- Concrete instance of C8. -/
theorem C8_witness :
    (handle_state_text cfg8 id db8 1 "my stolen recipe" 500).2.1 =
        .missionOutcome .duplicateRecipe
    ∧ (handle_state_text cfg8 id db8 1 "my stolen recipe" 500).2.2.submissions =
        db8.submissions
    ∧ get_user (handle_state_text cfg8 id db8 1 "my stolen recipe" 500).2.2 1 = some row8
    ∧ ledger_count (handle_state_text cfg8 id db8 1 "my stolen recipe" 500).2.2 1
        "mission:recipe_submit" = ledger_count db8 1 "mission:recipe_submit" := by
  have h := C8_duplicate_rejection_no_side_effects cfg8 id db8 1 "my stolen recipe" 500 row8
    ⟨"recipe_submit", 30, 0, ""⟩ "my stolen recipe" (by decide) (by decide) (by decide)
    (by decide) (by decide)
  exact ⟨h.1, h.2.2.1, h.2.2.2.2.1, h.2.2.2.2.2 (by decide)⟩

/-- Concrete instance of the amended C1 on the fixtures. -/
theorem C1_amended_witness :
    LedgerExt dbC1 (daily_checkin_step cfgC1 fmtC1 parseC1 dbC1 1 2).2 (fun e =>
      e.unique_key = "daily_checkin:" ++ fmtC1 2
      ∨ ∃ r ∈ cfgC1.streak_bonuses,
          e.unique_key = "streak_bonus:" ++ toString r.1 ++ ":" ++ fmtC1 2)
    ∧ LedgerExt db5 (mission_submit cfg5 id db5 1 "X" "hi" 50).2
        (fun e => e.unique_key = "mission:" ++ "X")
    ∧ ((⟨1, "X", "mission:X", 20, 100⟩ : PendingReward) ∈ db5.pending_rewards
        ∨ (⟨1, "X", "mission:X", 20, 100⟩ : PendingReward).unique_key = "mission:" ++ "X")
    ∧ LedgerExt dbW (wallet_confirm cfgW dbW 1).2 (fun e =>
        (e.user_id = 1 ∧ e.unique_key = "wallet_register")
        ∨ e.unique_key = "referral:" ++ toString (1 : ℤ)) := by
  obtain ⟨p1, p2, p3⟩ := C1_amended_key_conventions
  exact ⟨p1 cfgC1 fmtC1 parseC1 dbC1 1 2, (p2 cfg5 id db5 1 "X" "hi" 50).1,
    (p2 cfg5 id db5 1 "X" "hi" 50).2 ⟨1, "X", "mission:X", 20, 100⟩ (by decide),
    p3 cfgW dbW 1⟩
